import Mathlib

/-!
Verification of the smartspot chart pipeline and spot-price proxy.

The development shallowly embeds the data-shaping pipeline of
`src/components/chartView.tsx` (normalisation, interval estimation, per-day
ranking and colouring, visibility filtering, annotation, layout sizing) and
the query validation of `src/app/api/spot/route.ts`.  JavaScript numbers are
modelled as exact rationals (`ℚ`) for prices and pixel widths and as integers
(`ℤ`) for epoch-millisecond timestamps; `Array.prototype.sort` (stable) is
modelled by `List.insertionSort`; a JS `Map` is modelled by an association
list whose `set` replaces the value of an existing key in place; locale and
date formatting (`Intl`, `Date` parsing) are abstracted as function
parameters; the local clock is modelled by a fixed UTC offset (no DST jump
inside the displayed range).
-/

/-- `Math.round` for a nonnegative JS number: round half up. -/
def jsRound (x : ℚ) : ℤ := ⌊x + 1/2⌋

/-- Raw upstream price record (`SpotPrice` in `chartView.tsx`): every field
is optional. -/
structure SpotPrice where
  DateTime : Option String
  PriceNoTax : Option ℚ
  PriceWithTax : Option ℚ
  Rank : Option ℤ
deriving DecidableEq

/-- A normalised chart point (`ChartDatum` in `chartView.tsx`).  `fill` is
`none` until the colouring stage attaches a colour. -/
structure ChartDatum where
  label : String
  fullLabel : String
  price : ℚ
  timestamp : ℤ
  dayKey : String
  fill : Option String := none
deriving DecidableEq

/-- A reference-line marker (day-change lines): x position plus label. -/
structure Marker where
  x : ℤ
  label : String
deriving DecidableEq

/-- `Map.prototype.get`: first matching key wins (our `mapSet` keeps keys
unique, and the rank map prepends so that the latest `set` is found first,
exactly the JS overwrite semantics). -/
def mapGet {κ β : Type} [DecidableEq κ] : List (κ × β) → κ → Option β
  | [], _ => none
  | (k, v) :: rest, key => if key = k then some v else mapGet rest key

/-- `Map.prototype.set`: replace the value of an existing key in place,
otherwise append — preserving JS `Map` insertion order for iteration. -/
def mapSet {κ β : Type} [DecidableEq κ] : List (κ × β) → κ → β → List (κ × β)
  | [], key, val => [(key, val)]
  | (k, v) :: rest, key, val =>
    if key = k then (key, val) :: rest else (k, v) :: mapSet rest key val

/-- Comparator `(a, b) => a.price - b.price` as an ordering relation. -/
def priceLe (a b : ChartDatum) : Prop := a.price ≤ b.price

/-- Comparator `(a, b) => a.timestamp - b.timestamp` as an ordering
relation. -/
def tsLe (a b : ChartDatum) : Prop := a.timestamp ≤ b.timestamp

instance : DecidableRel priceLe := fun a b => inferInstanceAs (Decidable (a.price ≤ b.price))

instance : DecidableRel tsLe := fun a b => inferInstanceAs (Decidable (a.timestamp ≤ b.timestamp))

instance : IsTotal ChartDatum priceLe := ⟨fun a b => le_total a.price b.price⟩

instance : IsTrans ChartDatum priceLe := ⟨fun _ _ _ h h' => le_trans h h'⟩

instance : IsTotal ChartDatum tsLe := ⟨fun a b => le_total a.timestamp b.timestamp⟩

instance : IsTrans ChartDatum tsLe := ⟨fun _ _ _ h h' => le_trans h h'⟩

/-- The Normalizer (`chartData` memo): map each raw record to a point —
dropping records with a falsy `DateTime`, a null selected price, or an
unparseable date — then sort ascending by timestamp.  Date parsing and the
`Intl` label formatters are supplied as functions (`parse` returns `none`
where `new Date(s).getTime()` would be `NaN`). -/
def chartData (parse : String → Option ℤ) (lbl flbl dayKeyOf : ℤ → String)
    (useTax : Bool) (valueMultiplier : ℚ) (data : List SpotPrice) :
    List ChartDatum :=
  ((data.map (fun item =>
      match item.DateTime with
      | none => none
      | some s =>
        if s = "" then none
        else
          match (if useTax then item.PriceWithTax else item.PriceNoTax) with
          | none => none
          | some rawPrice =>
            match parse s with
            | none => none
            | some t =>
              some { label := lbl t, fullLabel := flbl t,
                     price := rawPrice * valueMultiplier, timestamp := t,
                     dayKey := dayKeyOf t })).filterMap id).insertionSort tsLe

/-- Successive timestamp deltas:
`chartData.slice(1).map((item, i) => item.timestamp - chartData[i].timestamp)`. -/
def diffsOf (l : List ChartDatum) : List ℤ :=
  List.zipWith (fun next prev => next.timestamp - prev.timestamp) l.tail l

/-- The Interval Estimator (`stepMinutes` memo). -/
def stepMinutes (l : List ChartDatum) : ℤ :=
  if l.length < 2 then 60
  else
    let diffs := (diffsOf l).filter (fun d => decide (0 < d))
    if diffs.length = 0 then 60
    else
      let sorted := diffs.insertionSort (· ≤ ·)
      let median := sorted.getD (sorted.length / 2) 0
      let minutes := jsRound ((median : ℚ) / 60000)
      if minutes = 0 then 60 else minutes

/-- `pointsPerHour = Math.max(1, Math.round(60 / stepMinutes))`. -/
def pointsPerHour (l : List ChartDatum) : ℤ :=
  max 1 (jsRound ((60 : ℚ) / ((stepMinutes l : ℤ) : ℚ)))

/-- `stepMs = stepMinutes * 60 * 1000`. -/
def stepMsOf (l : List ChartDatum) : ℤ := stepMinutes l * 60 * 1000

/-- Bar colours (`PRICE_COLORS`). -/
def priceColorLow : String := "#16a34a"

/-- Bar colours (`PRICE_COLORS`). -/
def priceColorMid : String := "#f59e0b"

/-- Bar colours (`PRICE_COLORS`). -/
def priceColorHigh : String := "#ef4444"

/-- Per-day metadata: price ranks keyed by timestamp plus tier limits. -/
structure DayMeta where
  ranks : List (ℤ × ℕ)
  greenLimit : ℤ
  yellowLimit : ℤ

/-- The `grouped` map: points bucketed by day key in first-seen order. -/
def groupByDay (l : List ChartDatum) : List (String × List ChartDatum) :=
  l.foldl
    (fun m p => mapSet m p.dayKey (((mapGet m p.dayKey).getD []) ++ [p])) []

/-- The `ranks` map of one day: `sorted.forEach((point, index) =>
ranks.set(point.timestamp, index))` — the prepend makes the latest `set` the
first match of `mapGet`, i.e. JS overwrite semantics. -/
def ranksBuild (sorted : List ChartDatum) : List (ℤ × ℕ) :=
  sorted.enum.foldl (fun m ip => (ip.2.timestamp, ip.1) :: m) []

/-- Per-day metadata of one bucket: sort by price (stable), record each
point's 0-based rank keyed by its timestamp, and compute the tier limits. -/
def metaOf (pph : ℤ) (points : List ChartDatum) : DayMeta :=
  let sorted := points.insertionSort priceLe
  { ranks := ranksBuild sorted
    greenLimit := min (points.length : ℤ) (6 * pph)
    yellowLimit := min (points.length : ℤ) (12 * pph) }

/-- The `dayMeta` map keyed by day key. -/
def dayMetaOf (pph : ℤ) (l : List ChartDatum) : List (String × DayMeta) :=
  (groupByDay l).foldl (fun dm kb => mapSet dm kb.1 (metaOf pph kb.2)) []

/-- Colour one point from the day metadata:
`rank = meta?.ranks.get(point.timestamp) ?? 0`, then the three-way tier
comparison against `meta?.greenLimit ?? 0` and `meta?.yellowLimit ?? 0`. -/
def colorPoint (dm : List (String × DayMeta)) (p : ChartDatum) : ChartDatum :=
  let meta := mapGet dm p.dayKey
  let rank : ℕ :=
    match meta with
    | none => 0
    | some m => (mapGet m.ranks p.timestamp).getD 0
  let green : ℤ := match meta with | none => 0 | some m => m.greenLimit
  let yellow : ℤ := match meta with | none => 0 | some m => m.yellowLimit
  let fill :=
    if (rank : ℤ) < green then priceColorLow
    else if (rank : ℤ) < yellow then priceColorMid
    else priceColorHigh
  { p with fill := some fill }

/-- The Day Ranker/Colorer (`coloredData` memo). -/
def coloredData (pph : ℤ) (l : List ChartDatum) : List ChartDatum :=
  if l.length = 0 then [] else l.map (colorPoint (dayMetaOf pph l))

/-- The Visibility Filter (`visibleData` memo). -/
def visibleData (showPast : Bool) (stepMs now : ℤ)
    (colored : List ChartDatum) : List ChartDatum :=
  if showPast then colored
  else colored.filter (fun entry => decide (now < entry.timestamp + stepMs))

/-- One hour in milliseconds. -/
def hourMs : ℤ := 3600000

/-- `tick.setMinutes(0, 0, 0)`: floor to the start of the local clock hour
(`tz` is the local UTC offset in milliseconds). -/
def localHourStart (tz t : ℤ) : ℤ := t - (t + tz) % hourMs

/-- `date.getHours()` for an instant on a whole local hour. -/
def localHour (tz t : ℤ) : ℤ := ((t + tz) / hourMs) % 24

/-- The tick start: round the first visible timestamp up to the next local
clock hour, then up to the next even local hour. -/
def alignedStart (tz start : ℤ) : ℤ :=
  let t0 := localHourStart tz start
  let t1 := if t0 < start then t0 + hourMs else t0
  if localHour tz t1 % 2 ≠ 0 then t1 + hourMs else t1

/-- The `while (tick.getTime() <= end)` loop: one tick every two hours. -/
def ticksFrom (t e : ℤ) : List ℤ :=
  if t ≤ e then t :: ticksFrom (t + 2 * hourMs) e else []
termination_by (e + 2 * hourMs - t).toNat
decreasing_by
  have h : (0:ℤ) < hourMs := by norm_num [hourMs]
  omega

/-- The Annotator's axis ticks (`axisTicks` memo); `none` models the
`undefined` returned for an empty visible set. -/
def axisTicks (tz : ℤ) (visible : List ChartDatum) : Option (List ℤ) :=
  match visible.head?, visible.getLast? with
  | some hd, some lastP =>
    some (ticksFrom (alignedStart tz hd.timestamp) lastP.timestamp)
  | _, _ => none

/-- The day-change walk: `lastDay` starts at the first point's day key and is
updated to the current day key whenever it changes, emitting a marker at
`boundaryTimestamp - halfStepMs`. -/
def markersGo (dayLineLabel : ℤ → String) (halfStepMs : ℤ) (lastDay : String) :
    List ChartDatum → List Marker
  | [] => []
  | p :: rest =>
    if p.dayKey ≠ lastDay then
      { x := p.timestamp - halfStepMs, label := dayLineLabel p.timestamp } ::
        markersGo dayLineLabel halfStepMs p.dayKey rest
    else markersGo dayLineLabel halfStepMs lastDay rest

/-- The Annotator's day-change markers (`dayChangeMarkers` memo);
`dayLineLabel` abstracts `formatDayLineLabel(new Date(t))`. -/
def dayChangeMarkers (dayLineLabel : ℤ → String) (stepMs : ℤ)
    (visible : List ChartDatum) : List Marker :=
  match visible with
  | [] => []
  | p :: rest => markersGo dayLineLabel (stepMs / 2) p.dayKey rest

/-- Number of adjacent day-key changes in a point sequence. -/
def dayChanges (l : List ChartDatum) : ℕ :=
  (l.zip l.tail).countP (fun ab => decide (ab.1.dayKey ≠ ab.2.dayKey))

/-- The Annotator's "now" marker (`nowLineTimestamp` memo); `none` models
`null`. -/
def nowLineTimestamp (now : ℤ) (visible : List ChartDatum) : Option ℤ :=
  match visible.head?, visible.getLast? with
  | some hd, some lastP =>
    if now < hd.timestamp ∨ now > lastP.timestamp then none else some now
  | _, _ => none

/-- The Layout Sizer (`barSize` memo): `none` models the `undefined` bar
width when the container width is unknown/zero (falsy) or there are no
visible points. -/
def barSize (containerWidth : Option ℚ) (count : ℕ) : Option ℤ :=
  match containerWidth with
  | none => none
  | some w =>
    if w = 0 ∨ count = 0 then none
    else
      let available := max 0 (w - 16)
      let perBar := available / (count : ℚ)
      some (max 1 ⌊perBar * (92 / 100)⌋)

/-! ## The spot proxy (`src/app/api/spot/route.ts`) -/

/-- The four upstream endpoints. -/
inductive EndpointKey
  | today
  | dayForward
  | todayAndDayForward
  | justNow
deriving DecidableEq

/-- `TYPE_ALIASES` lookup (keys already lower-cased). -/
def typeAliases (s : String) : Option EndpointKey :=
  if s = "today" then some .today
  else if s = "dayforward" then some .dayForward
  else if s = "day-forward" then some .dayForward
  else if s = "tomorrow" then some .dayForward
  else if s = "todayanddayforward" then some .todayAndDayForward
  else if s = "today-dayforward" then some .todayAndDayForward
  else if s = "today-and-dayforward" then some .todayAndDayForward
  else if s = "justnow" then some .justNow
  else if s = "just-now" then some .justNow
  else if s = "now" then some .justNow
  else none

/-- `resolveType`: a missing or empty (falsy) value defaults to `today`;
`lower` abstracts `String.prototype.toLowerCase`. -/
def resolveType (lower : String → String) (v : Option String) :
    Option EndpointKey :=
  match v with
  | none => some .today
  | some s => if s = "" then some .today else typeAliases (lower s)

/-- The upstream `fetch` response as observed by the route handler. -/
structure UpstreamResponse where
  status : ℕ
  body : String
  contentType : Option String
deriving DecidableEq

/-- `response.ok`: status in the 200–299 range. -/
def upstreamOk (r : UpstreamResponse) : Bool :=
  decide (200 ≤ r.status) && decide (r.status ≤ 299)

/-- The response produced by the route handler. -/
structure ApiResponse where
  status : ℕ
  body : String
  headers : List (String × String)
deriving DecidableEq

/-- The request's query parameters as returned by `searchParams.get`. -/
structure SpotQuery where
  type : Option String
  region : Option String
  priceResolution : Option String
  lookForwardHours : Option String
  homeAssistant : Option String
  homeAssistant15 : Option String

/-- The 400 response for an invalid `type`. -/
def resp400Type : ApiResponse :=
  ⟨400, "Invalid type. Use: today, dayForward, todayAndDayForward, justNow.",
    [("content-type", "application/json")]⟩

/-- The 400 response for an invalid `priceResolution`. -/
def resp400Res : ApiResponse :=
  ⟨400, "priceResolution must be 15 or 60.",
    [("content-type", "application/json")]⟩

/-- The 400 response for an invalid `lookForwardHours`. -/
def resp400Hours : ApiResponse :=
  ⟨400, "lookForwardHours must be an integer between 1 and 6.",
    [("content-type", "application/json")]⟩

/-- The 502 response for a failed upstream fetch. -/
def resp502 : ApiResponse :=
  ⟨502, "Upstream request failed.", [("content-type", "application/json")]⟩

/-- The `region` block: `if (region) upstreamParams.set("region",
region.toUpperCase())` — a present empty string is falsy and skipped.
`upper` abstracts `String.prototype.toUpperCase`. -/
def regionParams (upper : String → String) (q : SpotQuery) :
    List (String × String) :=
  match q.region with
  | some r => if r = "" then [] else [("region", upper r)]
  | none => []

/-- The `priceResolution` block: a supplied value whose `Number()` conversion
(`num`, `none` standing for `NaN`) is neither 15 nor 60 yields the 400
response. -/
def resParams (num : String → Option ℚ) (q : SpotQuery) :
    Except ApiResponse (List (String × String)) :=
  match q.priceResolution with
  | some s =>
    if s = "" then .ok []
    else
      match num s with
      | some x =>
        if x = 15 then .ok [("priceResolution", "15")]
        else if x = 60 then .ok [("priceResolution", "60")]
        else .error resp400Res
      | none => .error resp400Res
  | none => .ok []

/-- The `lookForwardHours` block: a supplied value that is not an integer in
`[1, 6]` (`Number.isInteger` fails on `NaN`) yields the 400 response. -/
def hoursParams (num : String → Option ℚ) (q : SpotQuery) :
    Except ApiResponse (List (String × String)) :=
  match q.lookForwardHours with
  | some s =>
    if s = "" then .ok []
    else
      match num s with
      | some x =>
        if x.den = 1 ∧ 1 ≤ x ∧ x ≤ 6 then
          .ok [("lookForwardHours", toString x.num)]
        else .error resp400Hours
      | none => .error resp400Hours
  | none => .ok []

/-- The `HomeAssistant` block: the flag is forwarded only when it is
literally `"true"` or `"false"`, and otherwise silently dropped. -/
def haParams (q : SpotQuery) : List (String × String) :=
  match q.homeAssistant with
  | some s => if s = "true" ∨ s = "false" then [("HomeAssistant", s)] else []
  | none => []

/-- The `HomeAssistant15Min` block, analogous to `HomeAssistant`. -/
def ha15Params (q : SpotQuery) : List (String × String) :=
  match q.homeAssistant15 with
  | some s =>
    if s = "true" ∨ s = "false" then [("HomeAssistant15Min", s)] else []
  | none => []

/-- Build the forwarded upstream query parameters, or an early 400 response
(the first failing validation wins, as with the route's early returns). -/
def buildParams (upper : String → String) (num : String → Option ℚ)
    (q : SpotQuery) : Except ApiResponse (List (String × String)) := do
  let resPs ← resParams num q
  let hoursPs ← hoursParams num q
  .ok (regionParams upper q ++ resPs ++ hoursPs ++ haParams q ++ ha15Params q)

/-- The `Cache-Control` value attached to successful upstream responses. -/
def cacheHeader : String := "public, s-maxage=60, stale-while-revalidate=300"

/-- A chart point with empty labels, for concrete test inputs. -/
def mkP (day : String) (t : ℤ) (pr : ℚ) : ChartDatum :=
  { label := "", fullLabel := "", price := pr, timestamp := t, dayKey := day }

/-- The route handler `GET`: validate the query, then pass the upstream
outcome through (`fetchResult` is `.error` exactly when `fetch` throws). -/
def routeGET (upper lower : String → String) (num : String → Option ℚ)
    (fetchResult : Except Unit UpstreamResponse) (q : SpotQuery) :
    ApiResponse :=
  match resolveType lower q.type with
  | none => resp400Type
  | some _ =>
    match buildParams upper num q with
    | .error e => e
    | .ok _ =>
      match fetchResult with
      | .error _ => resp502
      | .ok r =>
        let ct := r.contentType.getD "application/json"
        let headers :=
          if upstreamOk r then
            [("content-type", ct), ("Cache-Control", cacheHeader)]
          else [("content-type", ct)]
        ⟨r.status, r.body, headers⟩

/-- Modelled from the spec's words for claim C1 (refinement reference, not
from the source): the Interval Estimator "taking the lower-middle element
when the number of positive deltas is even, rounded to the nearest whole
minute" — the lower-middle of a sorted list of length `n` sits at index
`(n - 1) / 2`, and the claim states no zero fallback for the rounded
value. -/
def stepMinutesClaimLowerMedian (l : List ChartDatum) : ℤ :=
  if l.length < 2 then 60
  else
    let diffs := (diffsOf l).filter (fun d => decide (0 < d))
    if diffs.length = 0 then 60
    else
      let sorted := diffs.insertionSort (· ≤ ·)
      let median := sorted.getD ((sorted.length - 1) / 2) 0
      jsRound ((median : ℚ) / 60000)

/-! ## Helper lemmas -/

theorem floor_half : ⌊(1/2 : ℚ)⌋ = 0 := by
  rw [Int.floor_eq_zero_iff]
  constructor <;> norm_num

theorem jsRound_intCast (n : ℤ) : jsRound ((n : ℤ) : ℚ) = n := by
  unfold jsRound
  rw [Int.floor_int_add, floor_half, add_zero]

theorem mapGet_eq_some_of_mem {κ β : Type} [DecidableEq κ]
    (m : List (κ × β)) (k : κ) (v : β)
    (hmem : (k, v) ∈ m) (hnd : (m.map Prod.fst).Nodup) :
    mapGet m k = some v := by
  induction m with
  | nil => cases hmem
  | cons hd rest ih =>
    obtain ⟨k', v'⟩ := hd
    simp only [List.map_cons, List.nodup_cons] at hnd
    rcases List.mem_cons.mp hmem with heq | hrest
    · rw [Prod.mk.injEq] at heq
      obtain ⟨h1, h2⟩ := heq
      subst h1
      subst h2
      simp [mapGet]
    · have hk : ¬ (k = k') := by
        intro h
        exact hnd.1 (by rw [← h]; exact List.mem_map.mpr ⟨(k, v), hrest, rfl⟩)
      simp only [mapGet, if_neg hk]
      exact ih hrest hnd.2

theorem foldl_cons_eq_reverse_map {α β : Type} (g : α → β) :
    ∀ (l : List α) (acc : List β),
      l.foldl (fun m x => g x :: m) acc = (l.map g).reverse ++ acc := by
  intro l
  induction l with
  | nil => intro acc; simp
  | cons x xs ih =>
    intro acc
    simp only [List.foldl_cons, List.map_cons, List.reverse_cons, ih]
    simp

theorem ranksBuild_eq (s : List ChartDatum) :
    ranksBuild s =
      (s.enum.map (fun ip => (ip.2.timestamp, ip.1))).reverse := by
  unfold ranksBuild
  rw [foldl_cons_eq_reverse_map]
  simp

theorem ranksBuild_keys (s : List ChartDatum) :
    (ranksBuild s).map Prod.fst = (s.map (fun p => p.timestamp)).reverse := by
  rw [ranksBuild_eq, List.map_reverse, List.map_map]
  have : (Prod.fst ∘ fun ip : ℕ × ChartDatum => (ip.2.timestamp, ip.1)) =
      (fun p : ChartDatum => p.timestamp) ∘ Prod.snd := rfl
  rw [this, ← List.map_map, List.enum_map_snd]

theorem mem_ranksBuild (s : List ChartDatum) (i : ℕ) (h : i < s.length) :
    (s[i].timestamp, i) ∈ ranksBuild s := by
  rw [ranksBuild_eq]
  apply List.mem_reverse.mpr
  apply List.mem_map.mpr
  refine ⟨(i, s[i]), ?_, rfl⟩
  have hlen : i < s.enum.length := by simp [List.enum_length, h]
  have := List.getElem_enum s i hlen
  rw [← this]
  exact List.getElem_mem hlen

theorem ranksBuild_get (s : List ChartDatum)
    (hnd : (s.map (fun p => p.timestamp)).Nodup) (i : ℕ) (h : i < s.length) :
    mapGet (ranksBuild s) s[i].timestamp = some i :=
  mapGet_eq_some_of_mem _ _ _ (mem_ranksBuild s i h)
    (by rw [ranksBuild_keys]; exact List.nodup_reverse.mpr hnd)

theorem sorted_rel_of_getElem_le {α : Type} [LinearOrder α] {xs : List α}
    (hs : xs.Sorted (· ≤ ·)) {i j : ℕ} (hi : i < xs.length)
    (hj : j < xs.length) (hij : i ≤ j) : xs[i] ≤ xs[j] := by
  rcases Nat.lt_or_ge i j with h | h
  · exact List.pairwise_iff_getElem.mp hs i j hi hj h
  · have : i = j := le_antisymm hij h
    subst this
    exact le_refl _


theorem countP_lt_le_of_sorted {α : Type} [LinearOrder α] (xs : List α)
    (hs : xs.Sorted (· ≤ ·)) (i : ℕ) (hi : i < xs.length) (a : α)
    (ha : xs[i] = a) :
    xs.countP (fun x => decide (x < a)) ≤ i := by
  conv_lhs => rw [← List.take_append_drop i xs]
  rw [List.countP_append]
  have h1 : (xs.take i).countP (fun x => decide (x < a)) ≤ i := by
    refine le_trans (List.countP_le_length _) ?_
    simp [List.length_take]
  have h2 : (xs.drop i).countP (fun x => decide (x < a)) = 0 := by
    rw [List.countP_eq_zero]
    intro b hb
    obtain ⟨j, hj, rfl⟩ := List.mem_iff_getElem.mp hb
    rw [List.getElem_drop]
    simp only [decide_eq_true_eq, not_lt]
    rw [← ha]
    exact sorted_rel_of_getElem_le hs hi (by
      have := hj
      simp [List.length_drop] at this
      omega) (Nat.le_add_right i j)
  omega

theorem lt_countP_le_of_sorted {α : Type} [LinearOrder α] (xs : List α)
    (hs : xs.Sorted (· ≤ ·)) (i : ℕ) (hi : i < xs.length) (a : α)
    (ha : xs[i] = a) :
    i < xs.countP (fun x => decide (x ≤ a)) := by
  conv_rhs => rw [← List.take_append_drop (i + 1) xs]
  rw [List.countP_append]
  have h1 : i + 1 ≤ (xs.take (i + 1)).countP (fun x => decide (x ≤ a)) := by
    have hlen : (xs.take (i + 1)).length = i + 1 := by
      simp [List.length_take]
      omega
    have : (xs.take (i + 1)).countP (fun x => decide (x ≤ a)) =
        (xs.take (i + 1)).length := by
      rw [List.countP_eq_length]
      intro b hb
      obtain ⟨j, hj, rfl⟩ := List.mem_iff_getElem.mp hb
      rw [List.getElem_take]
      simp only [decide_eq_true_eq]
      have hj' : j < i + 1 := by
        have := hj
        rw [hlen] at this
        exact this
      rw [← ha]
      exact sorted_rel_of_getElem_le hs (by omega) hi (by omega)
    omega
  omega

theorem countP_lt_eq_of_sorted_nodup {α : Type} [LinearOrder α] (xs : List α)
    (hs : xs.Sorted (· ≤ ·)) (hne : xs.Pairwise (fun a b => a ≠ b)) (i : ℕ)
    (hi : i < xs.length) (a : α) (ha : xs[i] = a) :
    xs.countP (fun x => decide (x < a)) = i := by
  refine le_antisymm (countP_lt_le_of_sorted xs hs i hi a ha) ?_
  conv_rhs => rw [← List.take_append_drop i xs]
  rw [List.countP_append]
  have h1 : (xs.take i).countP (fun x => decide (x < a)) = (xs.take i).length := by
    rw [List.countP_eq_length]
    intro b hb
    obtain ⟨j, hj, rfl⟩ := List.mem_iff_getElem.mp hb
    rw [List.getElem_take]
    simp only [decide_eq_true_eq]
    have hj' : j < i := by
      have := hj
      simp [List.length_take] at this
      omega
    rw [← ha]
    refine lt_of_le_of_ne ?_ ?_
    · exact sorted_rel_of_getElem_le hs (by omega) hi (by omega)
    · exact List.pairwise_iff_getElem.mp hne j i (by omega) hi hj'
  have hlen : (xs.take i).length = i := by
    simp [List.length_take]
    omega
  omega

theorem chain_of_diffs_replicate (d : ℤ) :
    ∀ l : List ChartDatum, diffsOf l = List.replicate (l.length - 1) d →
      List.Chain' (fun a b => b.timestamp = a.timestamp + d) l := by
  intro l
  induction l with
  | nil => intro _; exact List.chain'_nil
  | cons a rest ih =>
    cases rest with
    | nil => intro _; simp [List.chain'_singleton]
    | cons b r =>
      intro h
      simp only [diffsOf, List.tail_cons, List.zipWith_cons_cons,
        List.length_cons, Nat.add_sub_cancel, List.replicate_succ,
        List.cons.injEq] at h
      obtain ⟨h1, h2⟩ := h
      refine List.chain'_cons.mpr ⟨by omega, ?_⟩
      apply ih
      simpa [diffsOf, List.length_cons, Nat.add_sub_cancel] using h2

theorem insertionSort_replicate (n : ℕ) (d : ℤ) :
    (List.replicate n d).insertionSort (· ≤ ·) = List.replicate n d := by
  rw [List.eq_replicate_iff]
  constructor
  · rw [(List.perm_insertionSort (· ≤ ·) (List.replicate n d)).length_eq]
    simp
  · intro b hb
    have := (List.perm_insertionSort (· ≤ ·) (List.replicate n d)).mem_iff.mp hb
    exact List.eq_of_mem_replicate this

theorem stepMinutes_of_diffs_replicate (l : List ChartDatum) (d : ℤ)
    (hd : 0 < d) (h2 : 2 ≤ l.length)
    (hdiff : diffsOf l = List.replicate (l.length - 1) d) :
    stepMinutes l =
      if jsRound ((d : ℚ) / 60000) = 0 then 60 else jsRound ((d : ℚ) / 60000) := by
  unfold stepMinutes
  rw [if_neg (by omega)]
  have hfil : (diffsOf l).filter (fun x => decide (0 < x)) =
      List.replicate (l.length - 1) d := by
    rw [hdiff, List.filter_replicate, if_pos (by simpa using hd)]
  simp only [hfil]
  rw [if_neg (by simp; omega)]
  rw [insertionSort_replicate]
  have hlen : (List.replicate (l.length - 1) d).length = l.length - 1 := by simp
  have hidx : (List.replicate (l.length - 1) d).length / 2 <
      (List.replicate (l.length - 1) d).length := by
    rw [hlen]
    omega
  rw [List.getD_eq_getElem _ _ hidx, List.getElem_replicate]

theorem stepMinutes_hourly (l : List ChartDatum) (h2 : 2 ≤ l.length)
    (hdiff : diffsOf l = List.replicate (l.length - 1) 3600000) :
    stepMinutes l = 60 := by
  rw [stepMinutes_of_diffs_replicate l 3600000 (by norm_num) h2 hdiff]
  have h : ((3600000 : ℤ) : ℚ) / 60000 = ((60 : ℤ) : ℚ) := by norm_num
  rw [h, jsRound_intCast]
  norm_num

theorem pointsPerHour_hourly (l : List ChartDatum) (h2 : 2 ≤ l.length)
    (hdiff : diffsOf l = List.replicate (l.length - 1) 3600000) :
    pointsPerHour l = 1 := by
  unfold pointsPerHour
  rw [stepMinutes_hourly l h2 hdiff]
  have h : (60 : ℚ) / ((60 : ℤ) : ℚ) = ((1 : ℤ) : ℚ) := by norm_num
  rw [h, jsRound_intCast]
  simp

theorem groupByDay_foldl_single (k : String) :
    ∀ (l : List ChartDatum) (acc : List ChartDatum), (∀ p ∈ l, p.dayKey = k) →
      l.foldl
        (fun m p => mapSet m p.dayKey (((mapGet m p.dayKey).getD []) ++ [p]))
        [(k, acc)] = [(k, acc ++ l)] := by
  intro l
  induction l with
  | nil => intro acc _; simp
  | cons p rest ih =>
    intro acc hday
    have hp : p.dayKey = k := hday p (List.mem_cons_self p rest)
    simp only [List.foldl_cons, hp]
    have hget : mapGet [(k, acc)] k = some acc := by simp [mapGet]
    have hset : mapSet [(k, acc)] k (acc ++ [p]) = [(k, acc ++ [p])] := by
      simp [mapSet]
    rw [hget]
    simp only [Option.getD_some, hset]
    rw [ih (acc ++ [p]) (fun q hq => hday q (List.mem_cons_of_mem p hq))]
    simp

theorem groupByDay_single (k : String) (l : List ChartDatum) (hne : l ≠ [])
    (hday : ∀ p ∈ l, p.dayKey = k) : groupByDay l = [(k, l)] := by
  cases l with
  | nil => exact absurd rfl hne
  | cons p rest =>
    have hp : p.dayKey = k := hday p (List.mem_cons_self p rest)
    unfold groupByDay
    simp only [List.foldl_cons, hp]
    have hstep : mapSet ([] : List (String × List ChartDatum)) k
        (((mapGet ([] : List (String × List ChartDatum)) k).getD []) ++ [p]) =
        [(k, [p])] := by simp [mapGet, mapSet]
    rw [hstep]
    rw [groupByDay_foldl_single k rest [p]
      (fun q hq => hday q (List.mem_cons_of_mem p hq))]
    simp

theorem dayMetaOf_single (pph : ℤ) (k : String) (l : List ChartDatum)
    (hne : l ≠ []) (hday : ∀ p ∈ l, p.dayKey = k) :
    dayMetaOf pph l = [(k, metaOf pph l)] := by
  unfold dayMetaOf
  rw [groupByDay_single k l hne hday]
  simp [mapSet]

theorem colorPoint_price (dm : List (String × DayMeta)) (p : ChartDatum) :
    (colorPoint dm p).price = p.price := rfl

/-- C3: for a single day of 24 hourly points with pairwise-distinct prices,
the Day Ranker/Colorer tags exactly 6 points low, 6 mid, 12 high, and the
low-tagged points are precisely those with fewer than 6 cheaper points. -/
theorem c3_day_ranker_partition (l : List ChartDatum) (day : String)
    (hlen : l.length = 24)
    (hday : ∀ p ∈ l, p.dayKey = day)
    (hdiff : diffsOf l = List.replicate (l.length - 1) 3600000)
    (hprices : l.Pairwise (fun a b => a.price ≠ b.price)) :
    pointsPerHour l = 1 ∧
    (coloredData (pointsPerHour l) l).countP
        (fun p => decide (p.fill = some priceColorLow)) = 6 ∧
    (coloredData (pointsPerHour l) l).countP
        (fun p => decide (p.fill = some priceColorMid)) = 6 ∧
    (coloredData (pointsPerHour l) l).countP
        (fun p => decide (p.fill = some priceColorHigh)) = 12 ∧
    ∀ p ∈ coloredData (pointsPerHour l) l,
      (p.fill = some priceColorLow ↔
        l.countP (fun q => decide (q.price < p.price)) < 6) := by
  have hne : l ≠ [] := by
    intro h
    rw [h] at hlen
    simp at hlen
  have hpph : pointsPerHour l = 1 := pointsPerHour_hourly l (by omega) hdiff
  rw [hpph]
  refine ⟨rfl, ?_⟩
  set s := l.insertionSort priceLe with hs
  have hperm : s.Perm l := List.perm_insertionSort priceLe l
  have hslen : s.length = 24 := by rw [hperm.length_eq, hlen]
  have hchain := chain_of_diffs_replicate 3600000 l hdiff
  have hchain2 : List.Chain' (· < ·) (l.map (fun p => p.timestamp)) := by
    rw [List.chain'_map]
    refine hchain.imp ?_
    intro a b h
    omega
  have hndl : (l.map (fun p => p.timestamp)).Nodup := by
    have hp := (List.chain'_iff_pairwise).mp hchain2
    exact hp.imp (fun h => ne_of_lt h)
  have hnds : (s.map (fun p => p.timestamp)).Nodup := by
    refine (List.Perm.nodup_iff ?_).mpr hndl
    exact hperm.map _
  have hsort : s.Sorted priceLe := List.sorted_insertionSort priceLe l
  have hsortq : (s.map (fun p => p.price)).Sorted (· ≤ ·) := by
    rw [List.Sorted, List.pairwise_map]
    exact hsort
  have hneq : s.Pairwise (fun a b => a.price ≠ b.price) := by
    refine (hperm.pairwise_iff ?_).mpr hprices
    intro x y h h'
    exact h h'.symm
  have hneqq : (s.map (fun p => p.price)).Pairwise (fun a b => a ≠ b) :=
    List.pairwise_map.mpr hneq
  have hcd : coloredData 1 l = l.map (colorPoint (dayMetaOf 1 l)) := by
    unfold coloredData
    rw [if_neg (by rw [hlen]; norm_num)]
  have hdm : dayMetaOf 1 l = [(day, metaOf 1 l)] :=
    dayMetaOf_single 1 day l hne hday
  have hranks : (metaOf 1 l).ranks = ranksBuild s := rfl
  have hgreen : (metaOf 1 l).greenLimit = 6 := by
    show min (l.length : ℤ) (6 * 1) = 6
    rw [hlen]
    norm_num
  have hyellow : (metaOf 1 l).yellowLimit = 12 := by
    show min (l.length : ℤ) (12 * 1) = 12
    rw [hlen]
    norm_num
  have hfill : ∀ (i : ℕ) (hi : i < s.length),
      (colorPoint (dayMetaOf 1 l) s[i]).fill =
        some (if (i : ℤ) < 6 then priceColorLow
              else if (i : ℤ) < 12 then priceColorMid
              else priceColorHigh) := by
    intro i hi
    have hmem : s[i] ∈ l := hperm.mem_iff.mp (List.getElem_mem hi)
    have hkey : s[i].dayKey = day := hday _ hmem
    have hget : mapGet (dayMetaOf 1 l) s[i].dayKey = some (metaOf 1 l) := by
      rw [hdm, hkey]
      simp [mapGet]
    have hrk : mapGet (ranksBuild s) s[i].timestamp = some i :=
      ranksBuild_get s hnds i hi
    simp only [colorPoint, hget, hranks, hrk, hgreen, hyellow,
      Option.getD_some]
  have hmap : s.map (fun p => (colorPoint (dayMetaOf 1 l) p).fill) =
      (List.range 24).map (fun (i : ℕ) =>
        some (if (i : ℤ) < 6 then priceColorLow
              else if (i : ℤ) < 12 then priceColorMid
              else priceColorHigh)) := by
    apply List.ext_getElem
    · simp [hslen]
    · intro i h1 h2
      simp only [List.getElem_map, List.getElem_range]
      exact hfill i (by simpa [hslen] using h2)
  have hcount : ∀ (c : String),
      (coloredData 1 l).countP (fun p => decide (p.fill = some c)) =
        (List.range 24).countP (fun (i : ℕ) =>
          decide (some (if (i : ℤ) < 6 then priceColorLow
                        else if (i : ℤ) < 12 then priceColorMid
                        else priceColorHigh) = some c)) := by
    intro c
    rw [hcd, List.countP_map]
    have h1 : l.countP
        ((fun o => decide (o = some c)) ∘
          (fun p => (colorPoint (dayMetaOf 1 l) p).fill)) =
        s.countP ((fun o => decide (o = some c)) ∘
          (fun p => (colorPoint (dayMetaOf 1 l) p).fill)) :=
      (List.Perm.countP_eq _ hperm).symm
    have h2 : ((fun p : ChartDatum => decide (p.fill = some c)) ∘
        colorPoint (dayMetaOf 1 l)) =
        ((fun o => decide (o = some c)) ∘
          (fun p => (colorPoint (dayMetaOf 1 l) p).fill)) := rfl
    rw [h2, h1, ← List.countP_map, hmap, List.countP_map]
    rfl
  refine ⟨?_, ?_, ?_, ?_⟩
  · rw [hcount priceColorLow]
    decide
  · rw [hcount priceColorMid]
    decide
  · rw [hcount priceColorHigh]
    decide
  · intro p hp
    rw [hcd] at hp
    obtain ⟨q, hq, rfl⟩ := List.mem_map.mp hp
    have hqs : q ∈ s := hperm.mem_iff.mpr hq
    obtain ⟨i, hi, hqi⟩ := List.mem_iff_getElem.mp hqs
    rw [← hqi]
    rw [hfill i hi, colorPoint_price]
    have hcnt : l.countP (fun r => decide (r.price < s[i].price)) = i := by
      rw [← List.Perm.countP_eq _ hperm]
      have h3 : s.countP (fun r => decide (r.price < s[i].price)) =
          (s.map (fun p => p.price)).countP
            (fun x => decide (x < s[i].price)) := by
        rw [List.countP_map]
        rfl
      rw [h3]
      refine countP_lt_eq_of_sorted_nodup _ hsortq hneqq i ?_ _ ?_
      · simp [hslen]
        omega
      · simp
    rw [hcnt]
    by_cases h6 : (i : ℤ) < 6
    · rw [if_pos h6]
      exact iff_of_true rfl (by exact_mod_cast h6)
    · rw [if_neg h6]
      have h6n : ¬ i < 6 := by
        intro h
        exact h6 (by exact_mod_cast h)
      refine iff_of_false ?_ h6n
      by_cases h12 : (i : ℤ) < 12
      · rw [if_pos h12]
        simp [priceColorMid, priceColorLow]
      · rw [if_neg h12]
        simp [priceColorHigh, priceColorLow]

/-- C4: the Visibility Filter passes everything through when `showPast` is
set, and otherwise keeps exactly the in-order subsequence of points whose
interval has not fully elapsed, altering no point. -/
theorem c4_visibility_filter (stepMs now : ℤ) (colored : List ChartDatum) :
    visibleData true stepMs now colored = colored ∧
    (visibleData false stepMs now colored).Sublist colored ∧
    (∀ p ∈ visibleData false stepMs now colored, now < p.timestamp + stepMs) ∧
    (∀ p ∈ colored, now < p.timestamp + stepMs →
      p ∈ visibleData false stepMs now colored) := by
  refine ⟨rfl, ?_, ?_, ?_⟩
  · exact List.filter_sublist colored
  · intro p hp
    have := List.mem_filter.mp hp
    simpa using this.2
  · intro p hp hlt
    refine List.mem_filter.mpr ⟨hp, by simpa using hlt⟩

theorem c4_visibility_filter_witness :
    visibleData true 3600000 0 [mkP "d" 0 1] = [mkP "d" 0 1] ∧
    (visibleData false 3600000 0 [mkP "d" 0 1]).Sublist [mkP "d" 0 1] ∧
    (∀ p ∈ visibleData false 3600000 0 [mkP "d" 0 1],
      (0:ℤ) < p.timestamp + 3600000) ∧
    (∀ p ∈ [mkP "d" 0 1], (0:ℤ) < p.timestamp + 3600000 →
      p ∈ visibleData false 3600000 0 [mkP "d" 0 1]) :=
  c4_visibility_filter 3600000 0 [mkP "d" 0 1]

theorem sorted_tsLe_iff (l : List ChartDatum) :
    l.Sorted tsLe ↔ (l.map (fun p => p.timestamp)).Sorted (· ≤ ·) := by
  constructor
  · intro h
    exact List.pairwise_map.mpr (h.imp (fun hab => hab))
  · intro h
    exact (List.pairwise_map.mp h).imp (fun hab => hab)

theorem coloredData_timestamps (pph : ℤ) (l : List ChartDatum) :
    (coloredData pph l).map (fun p => p.timestamp) =
      l.map (fun p => p.timestamp) := by
  unfold coloredData
  by_cases h : l.length = 0
  · rw [if_pos h, List.length_eq_zero.mp h]
  · rw [if_neg h, List.map_map]
    rfl

theorem visibleData_sublist (showPast : Bool) (stepMs now : ℤ)
    (l : List ChartDatum) : (visibleData showPast stepMs now l).Sublist l := by
  cases showPast
  · exact List.filter_sublist l
  · exact List.Sublist.refl l

/-- C5: the Normalizer's output is sorted non-decreasing by timestamp, every
output point stems from a record with a present timestamp and a non-null
selected price, and sortedness is preserved by the colouring and filtering
stages. -/
theorem c5_pipeline_sorted (parse : String → Option ℤ)
    (lbl flbl dayKeyOf : ℤ → String) (useTax : Bool) (mult : ℚ)
    (data : List SpotPrice) (showPast : Bool) (stepMs now pph : ℤ) :
    (chartData parse lbl flbl dayKeyOf useTax mult data).Sorted tsLe ∧
    (∀ p ∈ chartData parse lbl flbl dayKeyOf useTax mult data,
      ∃ rec ∈ data, ∃ s t r, rec.DateTime = some s ∧ s ≠ "" ∧
        parse s = some t ∧
        (if useTax then rec.PriceWithTax else rec.PriceNoTax) = some r ∧
        p.timestamp = t ∧ p.price = r * mult ∧ p.dayKey = dayKeyOf t) ∧
    (coloredData pph
      (chartData parse lbl flbl dayKeyOf useTax mult data)).Sorted tsLe ∧
    (visibleData showPast stepMs now (coloredData pph
      (chartData parse lbl flbl dayKeyOf useTax mult data))).Sorted tsLe := by
  have hsorted : (chartData parse lbl flbl dayKeyOf useTax mult data).Sorted
      tsLe := List.sorted_insertionSort tsLe _
  have hcolored : (coloredData pph
      (chartData parse lbl flbl dayKeyOf useTax mult data)).Sorted tsLe := by
    rw [sorted_tsLe_iff, coloredData_timestamps, ← sorted_tsLe_iff]
    exact hsorted
  refine ⟨hsorted, ?_, hcolored, ?_⟩
  · intro p hp
    have hp2 := (List.perm_insertionSort tsLe _).mem_iff.mp hp
    obtain ⟨o, ho, hoeq⟩ := List.mem_filterMap.mp hp2
    obtain ⟨rec, hrec, hfeq⟩ := List.mem_map.mp ho
    simp only [id] at hoeq
    subst hoeq
    rcases hDT : rec.DateTime with _ | s
    · simp only [hDT] at hfeq
      cases hfeq
    simp only [hDT] at hfeq
    by_cases hs : s = ""
    · rw [if_pos hs] at hfeq
      cases hfeq
    rw [if_neg hs] at hfeq
    rcases hpr : (if useTax then rec.PriceWithTax else rec.PriceNoTax)
        with _ | r
    · simp only [hpr] at hfeq
      cases hfeq
    simp only [hpr] at hfeq
    rcases hparse : parse s with _ | t
    · simp only [hparse] at hfeq
      cases hfeq
    simp only [hparse] at hfeq
    simp only [Option.some.injEq] at hfeq
    refine ⟨rec, hrec, s, t, r, hDT, hs, hparse, hpr, ?_, ?_, ?_⟩
    · rw [← hfeq]
    · rw [← hfeq]
    · rw [← hfeq]
  · have hsub := visibleData_sublist showPast stepMs now
      (coloredData pph (chartData parse lbl flbl dayKeyOf useTax mult data))
    exact List.Pairwise.sublist hsub hcolored

/-- C7: the "now" marker is absent for an empty visible set, is present
exactly when `now` lies within the inclusive first/last visible timestamp
range, and always equals `now` itself. -/
theorem c7_now_marker (now : ℤ) (visible : List ChartDatum) :
    (visible = [] → nowLineTimestamp now visible = none) ∧
    (∀ hd lastP, visible.head? = some hd → visible.getLast? = some lastP →
      (nowLineTimestamp now visible = some now ↔
        hd.timestamp ≤ now ∧ now ≤ lastP.timestamp)) ∧
    (∀ t, nowLineTimestamp now visible = some t → t = now) := by
  rcases hh : visible.head? with _ | hd0
  · have hnil : visible = [] := List.head?_eq_none_iff.mp hh
    subst hnil
    refine ⟨fun _ => rfl, ?_, ?_⟩
    · intro hd lastP h1 _
      simp at h1
    · intro t h
      simp [nowLineTimestamp] at h
  · rcases hg : visible.getLast? with _ | last0
    · have hnil : visible = [] := List.getLast?_eq_none_iff.mp hg
      subst hnil
      simp at hh
    · have hval : nowLineTimestamp now visible =
          if now < hd0.timestamp ∨ now > last0.timestamp then none
          else some now := by
        unfold nowLineTimestamp
        rw [hh, hg]
      refine ⟨?_, ?_, ?_⟩
      · intro hnil
        subst hnil
        simp at hh
      · intro hd lastP h1 h2
        simp only [Option.some.injEq] at h1 h2
        subst h1
        subst h2
        rw [hval]
        by_cases hc : now < hd0.timestamp ∨ now > last0.timestamp
        · rw [if_pos hc]
          refine iff_of_false (by simp) ?_
          intro hab
          rcases hc with hc | hc
          · omega
          · omega
        · rw [if_neg hc]
          push_neg at hc
          exact iff_of_true rfl ⟨hc.1, hc.2⟩
      · intro t h
        rw [hval] at h
        by_cases hc : now < hd0.timestamp ∨ now > last0.timestamp
        · rw [if_pos hc] at h
          cases h
        · rw [if_neg hc] at h
          simp only [Option.some.injEq] at h
          exact h.symm

theorem c7_now_marker_witness :
    (([mkP "d" 0 1] : List ChartDatum) = [] →
      nowLineTimestamp 0 [mkP "d" 0 1] = none) ∧
    (∀ hd lastP, ([mkP "d" 0 1] : List ChartDatum).head? = some hd →
      ([mkP "d" 0 1] : List ChartDatum).getLast? = some lastP →
      (nowLineTimestamp 0 [mkP "d" 0 1] = some 0 ↔
        hd.timestamp ≤ 0 ∧ (0:ℤ) ≤ lastP.timestamp)) ∧
    (∀ t, nowLineTimestamp 0 [mkP "d" 0 1] = some t → t = 0) :=
  c7_now_marker 0 [mkP "d" 0 1]

theorem barSize_some (w : ℚ) (n : ℕ) :
    barSize (some w) n =
      if w = 0 ∨ n = 0 then none
      else some (max 1 ⌊(max 0 (w - 16) / (n : ℚ)) * (92 / 100)⌋) := rfl

/-- C8: for a positive width and point count the Layout Sizer computes
`max 1 (floor(((w - 16) / n) * 0.92))`; with width 1000 and 24 points it
yields 37; with an unknown/zero width or zero count it emits nothing; and it
never emits a width below one pixel. -/
theorem c8_layout_sizer :
    (∀ (w : ℚ) (n : ℕ), 0 < w → 0 < n →
      barSize (some w) n =
        some (max 1 ⌊((w - 16) / (n : ℚ)) * (92 / 100)⌋)) ∧
    barSize (some 1000) 24 = some 37 ∧
    (∀ n, barSize none n = none) ∧
    (∀ n, barSize (some 0) n = none) ∧
    (∀ w, barSize (some w) 0 = none) ∧
    (∀ w n v, barSize w n = some v → 1 ≤ v) := by
  refine ⟨?_, ?_, ?_, ?_, ?_, ?_⟩
  · intro w n hw hn
    rw [barSize_some]
    rw [if_neg (by push_neg; exact ⟨ne_of_gt hw, Nat.pos_iff_ne_zero.mp hn⟩)]
    by_cases h16 : (16 : ℚ) ≤ w
    · have : max 0 (w - 16) = w - 16 := max_eq_right (by linarith)
      rw [this]
    · have hmax : max 0 (w - 16) = 0 := max_eq_left (by linarith)
      rw [hmax]
      have hz : ((0 : ℚ) / (n : ℚ)) * (92 / 100) = 0 := by
        rw [zero_div, zero_mul]
      rw [hz, Int.floor_zero]
      have hneg : ((w - 16) / (n : ℚ)) * (92 / 100) < 0 := by
        apply mul_neg_of_neg_of_pos
        · apply div_neg_of_neg_of_pos
          · linarith
          · exact_mod_cast hn
        · norm_num
      have hfneg : ⌊((w - 16) / (n : ℚ)) * (92 / 100)⌋ < 0 := by
        rw [Int.floor_lt]
        exact_mod_cast hneg
      congr 1
      omega
  · rw [barSize_some]
    rw [if_neg (by norm_num)]
    have h1 : (max 0 ((1000 : ℚ) - 16)) / ((24 : ℕ) : ℚ) * (92 / 100) =
        943 / 25 := by
      rw [max_eq_right (by norm_num)]
      norm_num
    rw [h1]
    have h2 : ⌊(943 / 25 : ℚ)⌋ = 37 := by
      rw [Int.floor_eq_iff]
      constructor <;> norm_num
    rw [h2]
    norm_num
  · intro n
    rfl
  · intro n
    rw [barSize_some, if_pos (Or.inl rfl)]
  · intro w
    rw [barSize_some, if_pos (Or.inr rfl)]
  · intro w n v h
    rcases w with _ | w
    · cases h
    · rw [barSize_some] at h
      by_cases hc : w = 0 ∨ n = 0
      · rw [if_pos hc] at h
        cases h
      · rw [if_neg hc] at h
        simp only [Option.some.injEq] at h
        rw [← h]
        exact le_max_left _ _

theorem c8_layout_sizer_witness :
    barSize (some 500) 10 =
      some (max 1 ⌊(((500 : ℚ) - 16) / ((10 : ℕ) : ℚ)) * (92 / 100)⌋) :=
  c8_layout_sizer.1 500 10 (by norm_num) (by norm_num)

theorem one_le_stepMinutes (l : List ChartDatum) : 1 ≤ stepMinutes l := by
  unfold stepMinutes
  by_cases h1 : l.length < 2
  · rw [if_pos h1]
    norm_num
  rw [if_neg h1]
  simp only []
  by_cases h2 : ((diffsOf l).filter (fun d => decide (0 < d))).length = 0
  · rw [if_pos h2]
    norm_num
  rw [if_neg h2]
  set diffs := (diffsOf l).filter (fun d => decide (0 < d)) with hdiffs
  set sorted := diffs.insertionSort (· ≤ ·) with hsorted
  set median := sorted.getD (sorted.length / 2) 0 with hmedian
  by_cases h3 : jsRound ((median : ℚ) / 60000) = 0
  · rw [if_pos h3]
    norm_num
  rw [if_neg h3]
  have hlen : sorted.length = diffs.length :=
    (List.perm_insertionSort _ _).length_eq
  have hlt : sorted.length / 2 < sorted.length := by
    rw [hlen]
    omega
  have hmem : median ∈ sorted := by
    rw [hmedian, List.getD_eq_getElem _ _ hlt]
    exact List.getElem_mem hlt
  have hmem2 : median ∈ diffs := (List.perm_insertionSort _ _).mem_iff.mp hmem
  have hpos : 0 < median := by
    have := List.of_mem_filter hmem2
    simpa using this
  have h0 : 0 ≤ jsRound ((median : ℚ) / 60000) := by
    unfold jsRound
    apply Int.floor_nonneg.mpr
    have : (0 : ℚ) < (median : ℚ) / 60000 := by
      apply div_pos
      · exact_mod_cast hpos
      · norm_num
    linarith
  omega

/-- C10: the estimated interval is always at least one minute (a rounded
median of zero falls back to 60, as on the concrete 10-second-delta input),
so `pointsPerHour` is at least 1 and `stepMs` is strictly positive. -/
theorem c10_interval_positive :
    (∀ l : List ChartDatum, 1 ≤ stepMinutes l) ∧
    (∀ l : List ChartDatum, 1 ≤ pointsPerHour l) ∧
    (∀ l : List ChartDatum, 0 < stepMsOf l) ∧
    stepMinutes [mkP "d" 0 0, mkP "d" 10000 0, mkP "d" 20000 0] = 60 := by
  refine ⟨one_le_stepMinutes, ?_, ?_, ?_⟩
  · intro l
    exact le_max_left _ _
  · intro l
    have := one_le_stepMinutes l
    unfold stepMsOf
    omega
  · rw [stepMinutes_of_diffs_replicate _ 10000 (by norm_num) (by decide)
      (by decide)]
    rw [if_pos ?_]
    unfold jsRound
    rw [Int.floor_eq_zero_iff]
    constructor <;> norm_num

theorem stepMinutes_eval (l : List ChartDatum) (ds : List ℤ) (m : ℤ)
    (h2 : ¬ l.length < 2)
    (hd : (diffsOf l).filter (fun d => decide (0 < d)) = ds)
    (hne : ¬ ds.length = 0)
    (hm : (ds.insertionSort (· ≤ ·)).getD
      ((ds.insertionSort (· ≤ ·)).length / 2) 0 = m) :
    stepMinutes l =
      if jsRound ((m : ℚ) / 60000) = 0 then 60
      else jsRound ((m : ℚ) / 60000) := by
  unfold stepMinutes
  rw [if_neg h2]
  simp only [hd]
  rw [if_neg hne]
  simp only [hm]

/-- C1 (amended): with fewer than 2 points, or with no positive delta, the
Interval Estimator returns 60; otherwise it returns the rounded median of
the positive deltas — the element at the median position of the sorted
deltas, i.e. the upper-middle element for even counts — with 60 substituted
when the rounded value is zero. -/
theorem c1_interval_estimator (l : List ChartDatum) :
    (l.length < 2 → stepMinutes l = 60) ∧
    ((diffsOf l).filter (fun d => decide (0 < d)) = [] →
      stepMinutes l = 60) ∧
    (2 ≤ l.length → (diffsOf l).filter (fun d => decide (0 < d)) ≠ [] →
      ∃ m ∈ (diffsOf l).filter (fun d => decide (0 < d)),
        ((diffsOf l).filter (fun d => decide (0 < d))).countP
            (fun x => decide (x < m)) ≤
          ((diffsOf l).filter (fun d => decide (0 < d))).length / 2 ∧
        ((diffsOf l).filter (fun d => decide (0 < d))).length / 2 <
          ((diffsOf l).filter (fun d => decide (0 < d))).countP
            (fun x => decide (x ≤ m)) ∧
        stepMinutes l =
          (if jsRound ((m : ℚ) / 60000) = 0 then 60
           else jsRound ((m : ℚ) / 60000))) := by
  refine ⟨?_, ?_, ?_⟩
  · intro h
    unfold stepMinutes
    rw [if_pos h]
  · intro h
    unfold stepMinutes
    by_cases h2 : l.length < 2
    · rw [if_pos h2]
    · rw [if_neg h2]
      simp only [h]
      rw [if_pos (by simp)]
  · intro h2 hne
    set D := (diffsOf l).filter (fun d => decide (0 < d)) with hD
    set sorted := D.insertionSort (· ≤ ·) with hsorted
    have hperm : sorted.Perm D := List.perm_insertionSort _ _
    have hlen : sorted.length = D.length := hperm.length_eq
    have hDlen : D.length ≠ 0 := fun h => hne (List.length_eq_zero.mp h)
    have hidx : sorted.length / 2 < sorted.length := by
      rw [hlen]
      omega
    set m := sorted.getD (sorted.length / 2) 0 with hm
    have hget : sorted[sorted.length / 2] = m :=
      (List.getD_eq_getElem sorted 0 hidx).symm
    have hmem : m ∈ sorted := by
      rw [← hget]
      exact List.getElem_mem hidx
    have hsorted2 : sorted.Sorted (· ≤ ·) :=
      List.sorted_insertionSort (· ≤ ·) D
    refine ⟨m, hperm.mem_iff.mp hmem, ?_, ?_, ?_⟩
    · rw [← List.Perm.countP_eq _ hperm, ← hlen]
      exact countP_lt_le_of_sorted sorted hsorted2 _ hidx m hget
    · rw [← List.Perm.countP_eq _ hperm, ← hlen]
      exact lt_countP_le_of_sorted sorted hsorted2 _ hidx m hget
    · exact stepMinutes_eval l D m (by omega) rfl hDlen rfl

theorem c1_interval_estimator_witness :
    ∃ m ∈ (diffsOf [mkP "d" 0 0, mkP "d" 60000 0, mkP "d" 240000 0]).filter
        (fun d => decide (0 < d)),
      ((diffsOf [mkP "d" 0 0, mkP "d" 60000 0, mkP "d" 240000 0]).filter
          (fun d => decide (0 < d))).countP (fun x => decide (x < m)) ≤
        ((diffsOf [mkP "d" 0 0, mkP "d" 60000 0, mkP "d" 240000 0]).filter
          (fun d => decide (0 < d))).length / 2 ∧
      ((diffsOf [mkP "d" 0 0, mkP "d" 60000 0, mkP "d" 240000 0]).filter
          (fun d => decide (0 < d))).length / 2 <
        ((diffsOf [mkP "d" 0 0, mkP "d" 60000 0, mkP "d" 240000 0]).filter
          (fun d => decide (0 < d))).countP (fun x => decide (x ≤ m)) ∧
      stepMinutes [mkP "d" 0 0, mkP "d" 60000 0, mkP "d" 240000 0] =
        (if jsRound ((m : ℚ) / 60000) = 0 then 60
         else jsRound ((m : ℚ) / 60000)) :=
  (c1_interval_estimator
    [mkP "d" 0 0, mkP "d" 60000 0, mkP "d" 240000 0]).2.2
    (by decide) (by decide)

/-- C1 counterexample: on timestamps 0, 60000, 240000 the positive deltas
are [1min, 3min]; the code takes the upper-middle element (3 minutes) while
the claim's lower-middle median would give 1 minute. -/
theorem c1_counterexample :
    stepMinutes [mkP "d" 0 0, mkP "d" 60000 0, mkP "d" 240000 0] = 3 ∧
    stepMinutesClaimLowerMedian
      [mkP "d" 0 0, mkP "d" 60000 0, mkP "d" 240000 0] = 1 := by
  constructor
  · rw [stepMinutes_eval _ [60000, 180000] 180000 (by decide) (by decide)
      (by decide) (by decide)]
    have h : ((180000 : ℤ) : ℚ) / 60000 = ((3 : ℤ) : ℚ) := by norm_num
    rw [h, jsRound_intCast]
    norm_num
  · unfold stepMinutesClaimLowerMedian
    rw [if_neg (by decide)]
    have hfil : (diffsOf [mkP "d" 0 0, mkP "d" 60000 0, mkP "d" 240000 0]).filter
        (fun d => decide (0 < d)) = [60000, 180000] := by decide
    simp only [hfil]
    rw [if_neg (by decide)]
    have hm : (([60000, 180000] : List ℤ).insertionSort (· ≤ ·)).getD
        (((([60000, 180000] : List ℤ).insertionSort (· ≤ ·)).length - 1) / 2)
        0 = 60000 := by decide
    simp only [hm]
    have h : ((60000 : ℤ) : ℚ) / 60000 = ((1 : ℤ) : ℚ) := by norm_num
    rw [h, jsRound_intCast]

theorem ticksFrom_unfold (t e : ℤ) :
    ticksFrom t e =
      if t ≤ e then t :: ticksFrom (t + 2 * hourMs) e else [] := by
  rw [ticksFrom]

theorem hourMs_pos : (0 : ℤ) < hourMs := by norm_num [hourMs]

theorem ticksFrom_mem (t e u : ℤ) (h : u ∈ ticksFrom t e) :
    t ≤ u ∧ u ≤ e := by
  induction t, e using ticksFrom.induct with
  | case1 t e hle ih =>
    rw [ticksFrom_unfold, if_pos hle] at h
    rcases List.mem_cons.mp h with rfl | hmem
    · exact ⟨le_refl u, hle⟩
    · have := ih hmem
      have hp := hourMs_pos
      constructor <;> omega
  | case2 t e hnle =>
    rw [ticksFrom_unfold, if_neg hnle] at h
    cases h

theorem ticksFrom_mem_step (t e u : ℤ) (h : u ∈ ticksFrom t e) :
    ∃ k : ℕ, u = t + (k : ℤ) * (2 * hourMs) := by
  induction t, e using ticksFrom.induct with
  | case1 t e hle ih =>
    rw [ticksFrom_unfold, if_pos hle] at h
    rcases List.mem_cons.mp h with rfl | hmem
    · exact ⟨0, by simp⟩
    · obtain ⟨k, hk⟩ := ih hmem
      refine ⟨k + 1, ?_⟩
      push_cast
      linarith
  | case2 t e hnle =>
    rw [ticksFrom_unfold, if_neg hnle] at h
    cases h

theorem ticksFrom_chain (t e : ℤ) :
    List.Chain' (fun a b => b = a + 2 * hourMs) (ticksFrom t e) := by
  induction t, e using ticksFrom.induct with
  | case1 t e hle ih =>
    rw [ticksFrom_unfold, if_pos hle]
    rcases hrec : ticksFrom (t + 2 * hourMs) e with _ | ⟨b, rest⟩
    · simp
    · have hb : b = t + 2 * hourMs := by
        rw [ticksFrom_unfold] at hrec
        by_cases hle2 : t + 2 * hourMs ≤ e
        · rw [if_pos hle2] at hrec
          exact (List.cons.injEq .. ▸ hrec).1.symm
        · rw [if_neg hle2] at hrec
          cases hrec
      have hchain := ih
      rw [hrec] at hchain
      exact List.chain'_cons.mpr ⟨hb, hchain⟩
  | case2 t e hnle =>
    rw [ticksFrom_unfold, if_neg hnle]
    exact List.chain'_nil

theorem ticksFrom_eq_nil_iff (t e : ℤ) : ticksFrom t e = [] ↔ e < t := by
  rw [ticksFrom_unfold]
  by_cases h : t ≤ e
  · rw [if_pos h]
    constructor
    · intro hcons
      cases hcons
    · intro hlt
      omega
  · rw [if_neg h]
    constructor
    · intro _
      omega
    · intro _
      rfl

theorem alignedStart_spec (tz start : ℤ) :
    start ≤ alignedStart tz start ∧
    (alignedStart tz start + tz) % hourMs = 0 ∧
    localHour tz (alignedStart tz start) % 2 = 0 := by
  simp only [alignedStart, localHourStart, localHour, hourMs]
  split_ifs with h1 h2 h3 <;> omega

/-- C2 (amended): the Annotator's axis ticks for a non-empty visible set
start at the first visible timestamp rounded up to the next clock hour and
then to the next even hour, step by exactly two hours, stay within the last
visible timestamp, and are strictly increasing; the sequence is non-empty
precisely when that rounded-up start does not exceed the last visible
timestamp. -/
theorem c2_axis_ticks (tz : ℤ) (visible : List ChartDatum) (ticks : List ℤ)
    (h : axisTicks tz visible = some ticks) :
    List.Chain' (fun a b => b = a + 2 * hourMs) ticks ∧
    List.Chain' (fun a b => a < b) ticks ∧
    (∀ hd, visible.head? = some hd →
      hd.timestamp ≤ alignedStart tz hd.timestamp ∧
      (alignedStart tz hd.timestamp + tz) % hourMs = 0 ∧
      localHour tz (alignedStart tz hd.timestamp) % 2 = 0 ∧
      ∀ u ∈ ticks, ∃ k : ℕ,
        u = alignedStart tz hd.timestamp + (k : ℤ) * (2 * hourMs)) ∧
    (∀ lastP, visible.getLast? = some lastP →
      ∀ u ∈ ticks, u ≤ lastP.timestamp) ∧
    (∀ hd lastP, visible.head? = some hd → visible.getLast? = some lastP →
      (ticks ≠ [] ↔ alignedStart tz hd.timestamp ≤ lastP.timestamp)) := by
  rcases hh : visible.head? with _ | hd0
  · unfold axisTicks at h
    rw [hh] at h
    cases h
  · rcases hg : visible.getLast? with _ | last0
    · unfold axisTicks at h
      rw [hh, hg] at h
      cases h
    · have hval : axisTicks tz visible =
          some (ticksFrom (alignedStart tz hd0.timestamp) last0.timestamp) := by
        unfold axisTicks
        rw [hh, hg]
      rw [hval] at h
      simp only [Option.some.injEq] at h
      subst h
      refine ⟨ticksFrom_chain _ _, ?_, ?_, ?_, ?_⟩
      · refine (ticksFrom_chain _ _).imp ?_
        intro a b hab
        have := hourMs_pos
        omega
      · intro hd hhd
        simp only [Option.some.injEq] at hhd
        subst hhd
        obtain ⟨h1, h2, h3⟩ := alignedStart_spec tz hd0.timestamp
        exact ⟨h1, h2, h3, fun u hu => ticksFrom_mem_step _ _ u hu⟩
      · intro lastP hlast u hu
        simp only [Option.some.injEq] at hlast
        subst hlast
        exact (ticksFrom_mem _ _ u hu).2
      · intro hd lastP hhd hlast
        simp only [Option.some.injEq] at hhd hlast
        subst hhd
        subst hlast
        rw [ne_eq, ticksFrom_eq_nil_iff]
        omega

theorem c2_axis_ticks_witness :
    List.Chain' (fun a b => b = a + 2 * hourMs) [(0 : ℤ)] ∧
    List.Chain' (fun a b => a < b) [(0 : ℤ)] ∧
    (∀ hd, ([mkP "d" 0 0] : List ChartDatum).head? = some hd →
      hd.timestamp ≤ alignedStart 0 hd.timestamp ∧
      (alignedStart 0 hd.timestamp + 0) % hourMs = 0 ∧
      localHour 0 (alignedStart 0 hd.timestamp) % 2 = 0 ∧
      ∀ u ∈ [(0 : ℤ)], ∃ k : ℕ,
        u = alignedStart 0 hd.timestamp + (k : ℤ) * (2 * hourMs)) ∧
    (∀ lastP, ([mkP "d" 0 0] : List ChartDatum).getLast? = some lastP →
      ∀ u ∈ [(0 : ℤ)], u ≤ lastP.timestamp) ∧
    (∀ hd lastP, ([mkP "d" 0 0] : List ChartDatum).head? = some hd →
      ([mkP "d" 0 0] : List ChartDatum).getLast? = some lastP →
      (([(0 : ℤ)] : List ℤ) ≠ [] ↔
        alignedStart 0 hd.timestamp ≤ lastP.timestamp)) :=
  c2_axis_ticks 0 [mkP "d" 0 0] [0] (by
    have h0 : axisTicks 0 [mkP "d" 0 0] =
        some (ticksFrom (alignedStart 0 0) 0) := rfl
    have h1 : alignedStart 0 0 = 0 := by decide
    rw [h0, h1, ticksFrom_unfold, if_pos (le_refl 0), ticksFrom_unfold,
      if_neg (by norm_num [hourMs])])

/-- C2 counterexample: a single visible point at 00:30 local time yields an
empty tick list (the rounded-up even hour 02:00 already exceeds the last
visible timestamp), refuting the claimed non-emptiness for non-empty
input. -/
theorem c2_counterexample :
    axisTicks 0 [mkP "d" 1800000 0] = some [] := by
  have h0 : axisTicks 0 [mkP "d" 1800000 0] =
      some (ticksFrom (alignedStart 0 1800000) 1800000) := rfl
  have h1 : alignedStart 0 1800000 = 7200000 := by decide
  rw [h0, h1, ticksFrom_unfold, if_neg (by norm_num)]

theorem markersGo_all_same (f : ℤ → String) (h : ℤ) :
    ∀ (rest : List ChartDatum) (k : String), (∀ p ∈ rest, p.dayKey = k) →
      markersGo f h k rest = [] := by
  intro rest
  induction rest with
  | nil => intro k _; rfl
  | cons p r ih =>
    intro k hk
    have hp : p.dayKey = k := hk p (List.mem_cons_self p r)
    unfold markersGo
    rw [if_neg (by simp [hp])]
    exact ih k (fun q hq => hk q (List.mem_cons_of_mem p hq))

theorem markersGo_length_eq (f : ℤ → String) (h : ℤ) :
    ∀ (rest : List ChartDatum) (p : ChartDatum),
      (markersGo f h p.dayKey rest).length = dayChanges (p :: rest) := by
  intro rest
  induction rest with
  | nil => intro p; rfl
  | cons q r ih =>
    intro p
    unfold dayChanges
    simp only [List.tail_cons, List.zip_cons_cons, List.countP_cons]
    by_cases hne : q.dayKey = p.dayKey
    · unfold markersGo
      rw [if_neg (by simp [hne])]
      have h2 : markersGo f h p.dayKey r = markersGo f h q.dayKey r := by
        rw [hne]
      rw [h2]
      have := ih q
      unfold dayChanges at this
      simp only [List.tail_cons] at this
      rw [this]
      have hfalse : decide (p.dayKey ≠ q.dayKey) = false := by
        simp [hne]
      rw [hfalse]
      simp
    · unfold markersGo
      rw [if_pos (fun hc => hne hc)]
      simp only [List.length_cons]
      have := ih q
      unfold dayChanges at this
      simp only [List.tail_cons] at this
      rw [this]
      have htrue : decide (p.dayKey ≠ q.dayKey) = true := by
        simp
        exact fun hc => hne hc.symm
      rw [htrue]
      simp

theorem dayChangeMarkers_length (f : ℤ → String) (stepMs : ℤ)
    (l : List ChartDatum) :
    (dayChangeMarkers f stepMs l).length = dayChanges l := by
  cases l with
  | nil => rfl
  | cons p rest => exact markersGo_length_eq f (stepMs / 2) rest p

theorem dayChangeMarkers_all_same (f : ℤ → String) (stepMs : ℤ)
    (l : List ChartDatum) (k : String) (hk : ∀ p ∈ l, p.dayKey = k) :
    dayChangeMarkers f stepMs l = [] := by
  cases l with
  | nil => rfl
  | cons p rest =>
    unfold dayChangeMarkers
    apply markersGo_all_same
    intro q hq
    rw [hk q (List.mem_cons_of_mem p hq), hk p (List.mem_cons_self p rest)]

theorem markersGo_two_day (f : ℤ → String) (h : ℤ) :
    ∀ (l1 : List ChartDatum) (k1 : String) (p2 : ChartDatum)
      (l2 : List ChartDatum) (k2 : String),
      (∀ p ∈ l1, p.dayKey = k1) → p2.dayKey = k2 →
      (∀ p ∈ l2, p.dayKey = k2) → k1 ≠ k2 →
      markersGo f h k1 (l1 ++ p2 :: l2) =
        [{ x := p2.timestamp - h, label := f p2.timestamp }] := by
  intro l1
  induction l1 with
  | nil =>
    intro k1 p2 l2 k2 _ hp2 hl2 hne
    simp only [List.nil_append]
    unfold markersGo
    rw [if_pos (by rw [hp2]; exact fun hh => hne hh.symm)]
    rw [markersGo_all_same f h l2 p2.dayKey
      (fun q hq => by rw [hl2 q hq, hp2])]
  | cons a r ih =>
    intro k1 p2 l2 k2 hl1 hp2 hl2 hne
    have ha : a.dayKey = k1 := hl1 a (List.mem_cons_self a r)
    simp only [List.cons_append]
    unfold markersGo
    rw [if_neg (by simp [ha])]
    exact ih k1 p2 l2 k2 (fun q hq => hl1 q (List.mem_cons_of_mem a hq))
      hp2 hl2 hne

/-- C6: for a 48-point hourly sequence spanning two day keys (24 points
each), exactly one day-change marker is produced, at `stepMs/2` before the
first point of the second day, labelled from that boundary instant; in
general the marker count equals the number of adjacent day-key changes, and
no marker is produced when all points share one day key. -/
theorem c6_day_change_markers (f : ℤ → String) :
    (∀ (l1 : List ChartDatum) (p2 : ChartDatum) (l2 : List ChartDatum)
        (k1 k2 : String),
      l1 ≠ [] → (∀ p ∈ l1, p.dayKey = k1) → p2.dayKey = k2 →
      (∀ p ∈ l2, p.dayKey = k2) → k1 ≠ k2 →
      l1.length = 24 → l2.length = 23 →
      diffsOf (l1 ++ p2 :: l2) =
        List.replicate ((l1 ++ p2 :: l2).length - 1) 3600000 →
      stepMsOf (l1 ++ p2 :: l2) = 3600000 ∧
      dayChangeMarkers f (stepMsOf (l1 ++ p2 :: l2)) (l1 ++ p2 :: l2) =
        [{ x := p2.timestamp - 1800000, label := f p2.timestamp }]) ∧
    (∀ (stepMs : ℤ) (l : List ChartDatum),
      (dayChangeMarkers f stepMs l).length = dayChanges l) ∧
    (∀ (stepMs : ℤ) (l : List ChartDatum) (k : String),
      (∀ p ∈ l, p.dayKey = k) → dayChangeMarkers f stepMs l = []) := by
  refine ⟨?_, dayChangeMarkers_length f, dayChangeMarkers_all_same f⟩
  intro l1 p2 l2 k1 k2 hne1 hl1 hp2 hl2 hkne hlen1 hlen2 hdiff
  have hlen : (l1 ++ p2 :: l2).length = 48 := by
    simp [hlen1, hlen2]
  have hstep : stepMinutes (l1 ++ p2 :: l2) = 60 :=
    stepMinutes_hourly _ (by omega) hdiff
  have hms : stepMsOf (l1 ++ p2 :: l2) = 3600000 := by
    unfold stepMsOf
    rw [hstep]
    norm_num
  refine ⟨hms, ?_⟩
  rw [hms]
  cases l1 with
  | nil => exact absurd rfl hne1
  | cons a r =>
    have ha : a.dayKey = k1 := hl1 a (List.mem_cons_self a r)
    simp only [List.cons_append]
    show markersGo f ((3600000 : ℤ) / 2) a.dayKey (r ++ p2 :: l2) =
      [{ x := p2.timestamp - 1800000, label := f p2.timestamp }]
    have hdiv : (3600000 : ℤ) / 2 = 1800000 := by norm_num
    rw [hdiv, ha]
    exact markersGo_two_day f 1800000 r k1 p2 l2 k2
      (fun q hq => hl1 q (List.mem_cons_of_mem a hq)) hp2 hl2 hkne

theorem c6_day_change_markers_witness :
    stepMsOf (((List.range 24).map (fun i => mkP "A" (3600000 * (i : ℤ)) 0)) ++
        mkP "B" 86400000 0 ::
        ((List.range 23).map
          (fun i => mkP "B" (3600000 * ((i : ℤ) + 25)) 0))) = 3600000 ∧
    dayChangeMarkers (fun _ => "")
        (stepMsOf
          (((List.range 24).map (fun i => mkP "A" (3600000 * (i : ℤ)) 0)) ++
            mkP "B" 86400000 0 ::
            ((List.range 23).map
              (fun i => mkP "B" (3600000 * ((i : ℤ) + 25)) 0))))
        (((List.range 24).map (fun i => mkP "A" (3600000 * (i : ℤ)) 0)) ++
          mkP "B" 86400000 0 ::
          ((List.range 23).map
            (fun i => mkP "B" (3600000 * ((i : ℤ) + 25)) 0))) =
      [{ x := (mkP "B" 86400000 0).timestamp - 1800000,
         label := (fun _ => "") (mkP "B" 86400000 0).timestamp }] :=
  (c6_day_change_markers (fun _ => "")).1
    ((List.range 24).map (fun i => mkP "A" (3600000 * (i : ℤ)) 0))
    (mkP "B" 86400000 0)
    ((List.range 23).map (fun i => mkP "B" (3600000 * ((i : ℤ) + 25)) 0))
    "A" "B" (by decide) (by decide) (by decide) (by decide) (by decide)
    (by decide) (by decide) (by decide)

theorem c3_day_ranker_partition_witness :
    pointsPerHour
        ((List.range 24).map
          (fun i => mkP "2025-01-01" (3600000 * (i : ℤ)) (i : ℚ))) = 1 ∧
    (coloredData
        (pointsPerHour ((List.range 24).map
          (fun i => mkP "2025-01-01" (3600000 * (i : ℤ)) (i : ℚ))))
        ((List.range 24).map
          (fun i => mkP "2025-01-01" (3600000 * (i : ℤ)) (i : ℚ)))).countP
      (fun p => decide (p.fill = some priceColorLow)) = 6 ∧
    (coloredData
        (pointsPerHour ((List.range 24).map
          (fun i => mkP "2025-01-01" (3600000 * (i : ℤ)) (i : ℚ))))
        ((List.range 24).map
          (fun i => mkP "2025-01-01" (3600000 * (i : ℤ)) (i : ℚ)))).countP
      (fun p => decide (p.fill = some priceColorMid)) = 6 ∧
    (coloredData
        (pointsPerHour ((List.range 24).map
          (fun i => mkP "2025-01-01" (3600000 * (i : ℤ)) (i : ℚ))))
        ((List.range 24).map
          (fun i => mkP "2025-01-01" (3600000 * (i : ℤ)) (i : ℚ)))).countP
      (fun p => decide (p.fill = some priceColorHigh)) = 12 ∧
    ∀ p ∈ coloredData
        (pointsPerHour ((List.range 24).map
          (fun i => mkP "2025-01-01" (3600000 * (i : ℤ)) (i : ℚ))))
        ((List.range 24).map
          (fun i => mkP "2025-01-01" (3600000 * (i : ℤ)) (i : ℚ))),
      (p.fill = some priceColorLow ↔
        ((List.range 24).map
          (fun i => mkP "2025-01-01" (3600000 * (i : ℤ)) (i : ℚ))).countP
          (fun q => decide (q.price < p.price)) < 6) :=
  c3_day_ranker_partition
    ((List.range 24).map
      (fun i => mkP "2025-01-01" (3600000 * (i : ℤ)) (i : ℚ)))
    "2025-01-01" (by decide) (by decide) (by decide) (by decide)

theorem buildParams_eq (upper : String → String) (num : String → Option ℚ)
    (q : SpotQuery) :
    buildParams upper num q =
      (resParams num q).bind (fun resPs =>
        (hoursParams num q).bind (fun hoursPs =>
          .ok (regionParams upper q ++ resPs ++ hoursPs ++ haParams q ++
            ha15Params q))) := rfl

theorem except_bind_ok {ε α β : Type} (e : Except ε α) (f : α → Except ε β)
    (b : β) (h : e.bind f = .ok b) : ∃ a, e = .ok a ∧ f a = .ok b := by
  cases e with
  | error err => cases h
  | ok a => exact ⟨a, rfl, h⟩

theorem resParams_error (num : String → Option ℚ) (q : SpotQuery)
    (e : ApiResponse) (h : resParams num q = .error e) : e = resp400Res := by
  unfold resParams at h
  split at h
  · split_ifs at h
    · split at h
      · split_ifs at h
        · injection h with h2
          exact h2.symm
      · injection h with h2
        exact h2.symm
  · cases h

theorem resParams_invalid (num : String → Option ℚ) (q : SpotQuery)
    (s : String) (hs : q.priceResolution = some s) (hne : s ≠ "")
    (hbad : ∀ x, num s = some x → x ≠ 15 ∧ x ≠ 60) :
    resParams num q = .error resp400Res := by
  unfold resParams
  simp only [hs]
  rw [if_neg hne]
  rcases hn : num s with _ | x
  · rfl
  · obtain ⟨h15, h60⟩ := hbad x hn
    show (if x = 15 then Except.ok [("priceResolution", "15")]
      else if x = 60 then Except.ok [("priceResolution", "60")]
      else Except.error resp400Res) = Except.error resp400Res
    rw [if_neg h15, if_neg h60]

theorem hoursParams_invalid (num : String → Option ℚ) (q : SpotQuery)
    (s : String) (hs : q.lookForwardHours = some s) (hne : s ≠ "")
    (hbad : ∀ x, num s = some x → ¬(x.den = 1 ∧ 1 ≤ x ∧ x ≤ 6)) :
    hoursParams num q = .error resp400Hours := by
  unfold hoursParams
  simp only [hs]
  rw [if_neg hne]
  rcases hn : num s with _ | x
  · rfl
  · show (if x.den = 1 ∧ 1 ≤ x ∧ x ≤ 6 then
        Except.ok [("lookForwardHours", toString x.num)]
      else Except.error resp400Hours) = Except.error resp400Hours
    rw [if_neg (hbad x hn)]

theorem routeGET_error_status (upper lower : String → String)
    (num : String → Option ℚ) (fetchResult : Except Unit UpstreamResponse)
    (q : SpotQuery) (e : ApiResponse)
    (hb : buildParams upper num q = .error e) (he : e.status = 400) :
    (routeGET upper lower num fetchResult q).status = 400 := by
  unfold routeGET
  rcases ht : resolveType lower q.type with _ | k
  · rfl
  · simp only [hb]
    exact he

theorem regionParams_keys (upper : String → String) (q : SpotQuery)
    (kv : String × String) (h : kv ∈ regionParams upper q) :
    kv.1 = "region" := by
  unfold regionParams at h
  split at h
  · split_ifs at h
    · cases h
    · rcases List.mem_singleton.mp h with rfl
      rfl
  · cases h

theorem resParams_ok_keys (num : String → Option ℚ) (q : SpotQuery)
    (a : List (String × String)) (h : resParams num q = .ok a) :
    ∀ kv ∈ a, kv.1 = "priceResolution" := by
  intro kv hkv
  unfold resParams at h
  split at h
  · split_ifs at h
    · injection h with h2
      subst h2
      cases hkv
    · split at h
      · split_ifs at h
        · injection h with h2
          subst h2
          rcases List.mem_singleton.mp hkv with rfl
          rfl
        · injection h with h2
          subst h2
          rcases List.mem_singleton.mp hkv with rfl
          rfl
      · cases h
  · injection h with h2
    subst h2
    cases hkv

theorem hoursParams_ok_keys (num : String → Option ℚ) (q : SpotQuery)
    (a : List (String × String)) (h : hoursParams num q = .ok a) :
    ∀ kv ∈ a, kv.1 = "lookForwardHours" := by
  intro kv hkv
  unfold hoursParams at h
  split at h
  · split_ifs at h
    · injection h with h2
      subst h2
      cases hkv
    · split at h
      · split_ifs at h
        · injection h with h2
          subst h2
          rcases List.mem_singleton.mp hkv with rfl
          rfl
      · cases h
  · injection h with h2
    subst h2
    cases hkv

theorem haParams_mem (q : SpotQuery) (v : String)
    (h : ("HomeAssistant", v) ∈ haParams q) :
    q.homeAssistant = some v ∧ (v = "true" ∨ v = "false") := by
  unfold haParams at h
  split at h
  · split_ifs at h with hc
    · rcases List.mem_singleton.mp h with h2
      rw [Prod.mk.injEq] at h2
      obtain ⟨_, h3⟩ := h2
      subst h3
      refine ⟨?_, hc⟩
      assumption
    · cases h
  · cases h

theorem ha15Params_keys (q : SpotQuery) (kv : String × String)
    (h : kv ∈ ha15Params q) : kv.1 = "HomeAssistant15Min" := by
  unfold ha15Params at h
  split at h
  · split_ifs at h
    · rcases List.mem_singleton.mp h with rfl
      rfl
    · cases h
  · cases h

theorem haParams_keys (q : SpotQuery) (kv : String × String)
    (h : kv ∈ haParams q) : kv.1 = "HomeAssistant" := by
  unfold haParams at h
  split at h
  · split_ifs at h
    · rcases List.mem_singleton.mp h with rfl
      rfl
    · cases h
  · cases h

theorem ha15Params_mem (q : SpotQuery) (v : String)
    (h : ("HomeAssistant15Min", v) ∈ ha15Params q) :
    q.homeAssistant15 = some v ∧ (v = "true" ∨ v = "false") := by
  unfold ha15Params at h
  split at h
  · split_ifs at h with hc
    · rcases List.mem_singleton.mp h with h2
      rw [Prod.mk.injEq] at h2
      obtain ⟨_, h3⟩ := h2
      subst h3
      refine ⟨?_, hc⟩
      assumption
    · cases h
  · cases h

/-- C9 (amended): the proxy returns 400 for a supplied `priceResolution`
outside 15/60 and for a supplied non-integer or out-of-range
`lookForwardHours`; a boolean flag that is not literally `"true"`/`"false"`
is silently dropped from the forwarded query rather than rejected; a
supplied region is upper-cased before forwarding; and when validation
passes, a throwing upstream fetch yields 502 while a completed fetch has its
status passed through. -/
theorem c9_proxy_validation (upper lower : String → String)
    (num : String → Option ℚ) (fetchResult : Except Unit UpstreamResponse)
    (q : SpotQuery) :
    (∀ s, q.priceResolution = some s → s ≠ "" →
      (∀ x, num s = some x → x ≠ 15 ∧ x ≠ 60) →
      (routeGET upper lower num fetchResult q).status = 400) ∧
    (∀ s, q.lookForwardHours = some s → s ≠ "" →
      (∀ x, num s = some x → ¬(x.den = 1 ∧ 1 ≤ x ∧ x ≤ 6)) →
      (routeGET upper lower num fetchResult q).status = 400) ∧
    (∀ ps, buildParams upper num q = .ok ps →
      ∀ v, ("HomeAssistant", v) ∈ ps →
        q.homeAssistant = some v ∧ (v = "true" ∨ v = "false")) ∧
    (∀ ps, buildParams upper num q = .ok ps →
      ∀ v, ("HomeAssistant15Min", v) ∈ ps →
        q.homeAssistant15 = some v ∧ (v = "true" ∨ v = "false")) ∧
    (∀ ps r, buildParams upper num q = .ok ps → q.region = some r →
      r ≠ "" → ("region", upper r) ∈ ps) ∧
    (∀ k ps, resolveType lower q.type = some k →
      buildParams upper num q = .ok ps →
      (fetchResult = .error () →
        routeGET upper lower num fetchResult q = resp502) ∧
      (∀ r, fetchResult = .ok r →
        (routeGET upper lower num fetchResult q).status = r.status)) := by
  refine ⟨?_, ?_, ?_, ?_, ?_, ?_⟩
  · intro s hs hne hbad
    have hres := resParams_invalid num q s hs hne hbad
    have hb : buildParams upper num q = .error resp400Res := by
      rw [buildParams_eq, hres]
      rfl
    exact routeGET_error_status upper lower num fetchResult q _ hb rfl
  · intro s hs hne hbad
    rcases hr : resParams num q with e | a
    · have he : e = resp400Res := resParams_error num q e hr
      subst he
      have hb : buildParams upper num q = .error resp400Res := by
        rw [buildParams_eq, hr]
        rfl
      exact routeGET_error_status upper lower num fetchResult q _ hb rfl
    · have hhours := hoursParams_invalid num q s hs hne hbad
      have hb : buildParams upper num q = .error resp400Hours := by
        rw [buildParams_eq, hr]
        show (hoursParams num q).bind _ = _
        rw [hhours]
        rfl
      exact routeGET_error_status upper lower num fetchResult q _ hb rfl
  · intro ps hb v hv
    rw [buildParams_eq] at hb
    obtain ⟨a, hr, hb2⟩ := except_bind_ok _ _ _ hb
    obtain ⟨b, hh, hb3⟩ := except_bind_ok _ _ _ hb2
    injection hb3 with hb4
    subst hb4
    rcases List.mem_append.mp hv with hv4 | hv5
    · rcases List.mem_append.mp hv4 with hv3 | hv4'
      · rcases List.mem_append.mp hv3 with hv2 | hv3'
        · rcases List.mem_append.mp hv2 with hv1 | hv2'
          · have := regionParams_keys upper q _ hv1
            simp at this
          · have := resParams_ok_keys num q a hr _ hv2'
            simp at this
        · have := hoursParams_ok_keys num q b hh _ hv3'
          simp at this
      · exact haParams_mem q v hv4'
    · have := ha15Params_keys q _ hv5
      simp at this
  · intro ps hb v hv
    rw [buildParams_eq] at hb
    obtain ⟨a, hr, hb2⟩ := except_bind_ok _ _ _ hb
    obtain ⟨b, hh, hb3⟩ := except_bind_ok _ _ _ hb2
    injection hb3 with hb4
    subst hb4
    rcases List.mem_append.mp hv with hv4 | hv5
    · rcases List.mem_append.mp hv4 with hv3 | hv4'
      · rcases List.mem_append.mp hv3 with hv2 | hv3'
        · rcases List.mem_append.mp hv2 with hv1 | hv2'
          · have := regionParams_keys upper q _ hv1
            simp at this
          · have := resParams_ok_keys num q a hr _ hv2'
            simp at this
        · have := hoursParams_ok_keys num q b hh _ hv3'
          simp at this
      · have := haParams_keys q _ hv4'
        simp at this
    · exact ha15Params_mem q v hv5
  · intro ps r hb hr hne
    rw [buildParams_eq] at hb
    obtain ⟨a, hra, hb2⟩ := except_bind_ok _ _ _ hb
    obtain ⟨b, hh, hb3⟩ := except_bind_ok _ _ _ hb2
    injection hb3 with hb4
    subst hb4
    have hreg : regionParams upper q = [("region", upper r)] := by
      unfold regionParams
      simp only [hr]
      rw [if_neg hne]
    refine List.mem_append.mpr (Or.inl ?_)
    refine List.mem_append.mpr (Or.inl ?_)
    refine List.mem_append.mpr (Or.inl ?_)
    refine List.mem_append.mpr (Or.inl ?_)
    rw [hreg]
    exact List.mem_singleton.mpr rfl
  · intro k ps ht hb
    constructor
    · intro hf
      unfold routeGET
      simp only [ht, hb, hf]
    · intro r hf
      unfold routeGET
      simp only [ht, hb, hf]

theorem c9_proxy_validation_witness :
    (routeGET id id (fun _ => some 7) (Except.ok ⟨200, "[]", none⟩)
      ⟨none, none, some "7", none, none, none⟩).status = 400 :=
  (c9_proxy_validation id id (fun _ => some 7) (Except.ok ⟨200, "[]", none⟩)
      ⟨none, none, some "7", none, none, none⟩).1 "7" rfl (by decide)
    (fun x hx => by
      injection hx with hx2
      subst hx2
      constructor <;> norm_num)

/-- C9 counterexample: a request whose `HomeAssistant` flag is the
non-literal string `"TRUE"` — or whose `HomeAssistant15Min` flag is the
non-literal string `"FALSE"` — is not rejected: the flag is silently
dropped and the upstream 200 passes through, while the claim demands a
400. -/
theorem c9_counterexample :
    (routeGET id id (fun _ => none) (Except.ok ⟨200, "[]", none⟩)
      ⟨none, none, none, none, some "TRUE", none⟩).status = 200 ∧
    (routeGET id id (fun _ => none) (Except.ok ⟨200, "[]", none⟩)
      ⟨none, none, none, none, some "TRUE", none⟩).status ≠ 400 ∧
    (routeGET id id (fun _ => none) (Except.ok ⟨200, "[]", none⟩)
      ⟨none, none, none, none, none, some "FALSE"⟩).status = 200 ∧
    (routeGET id id (fun _ => none) (Except.ok ⟨200, "[]", none⟩)
      ⟨none, none, none, none, none, some "FALSE"⟩).status ≠ 400 := by
  refine ⟨rfl, by decide, rfl, by decide⟩

theorem c5_pipeline_sorted_witness :
    (chartData (fun s => if s = "t1" then some 0
        else if s = "t2" then some 3600000 else none)
      (fun _ => "") (fun _ => "") (fun _ => "d") true 100
      [⟨some "t2", some 2, some 3, none⟩,
       ⟨some "t1", some 5, some 7, none⟩]).Sorted tsLe ∧
    (∀ p ∈ chartData (fun s => if s = "t1" then some 0
        else if s = "t2" then some 3600000 else none)
      (fun _ => "") (fun _ => "") (fun _ => "d") true 100
      [⟨some "t2", some 2, some 3, none⟩,
       ⟨some "t1", some 5, some 7, none⟩],
      ∃ rec ∈ [(⟨some "t2", some 2, some 3, none⟩ : SpotPrice),
               ⟨some "t1", some 5, some 7, none⟩],
        ∃ s t r, rec.DateTime = some s ∧ s ≠ "" ∧
          (fun s => if s = "t1" then some 0
            else if s = "t2" then some 3600000 else none) s = some t ∧
          (if true then rec.PriceWithTax else rec.PriceNoTax) = some r ∧
          p.timestamp = t ∧ p.price = r * 100 ∧ p.dayKey = (fun _ => "d") t) ∧
    (coloredData 1 (chartData (fun s => if s = "t1" then some 0
        else if s = "t2" then some 3600000 else none)
      (fun _ => "") (fun _ => "") (fun _ => "d") true 100
      [⟨some "t2", some 2, some 3, none⟩,
       ⟨some "t1", some 5, some 7, none⟩])).Sorted tsLe ∧
    (visibleData false 3600000 0 (coloredData 1
      (chartData (fun s => if s = "t1" then some 0
          else if s = "t2" then some 3600000 else none)
        (fun _ => "") (fun _ => "") (fun _ => "d") true 100
        [⟨some "t2", some 2, some 3, none⟩,
         ⟨some "t1", some 5, some 7, none⟩]))).Sorted tsLe :=
  c5_pipeline_sorted
    (fun s => if s = "t1" then some 0
      else if s = "t2" then some 3600000 else none)
    (fun _ => "") (fun _ => "") (fun _ => "d") true 100
    [⟨some "t2", some 2, some 3, none⟩,
     ⟨some "t1", some 5, some 7, none⟩] false 3600000 0 1
